import Mathlib

/-!
Verification of the extractive document summarizer (`summarize.py`).

The Python module consumes an ADM (Annotated Data Model): a dict holding the
document text, sentence/token collections and entity collections, all carrying
half-open character-offset ranges.  The core pipeline is
`score_sentences` (frequency models + a coordinated sweep assigning each
sentence a score and token length) followed by `summarize` (ranking,
selection, text reconstruction).

This file shallowly embeds those functions.  Python dicts with optional
fields become structures with `Option` fields; in-place mutation becomes
explicit result values; the `while ... pop(0)` loops become fueled recursion
(the fuel bound is proved sufficient); `float` arithmetic is modelled exactly,
with the rational part of a score kept in `ℚ` and the final `math.log` decay
factor applied over `ℝ`.  Exceptions (`IndexError` from `analyses[0]` on an
empty list, `ZeroDivisionError` from `n / len(sentences)`) are modelled with
`Except`.
-/

namespace Summarize

/-- One token analysis: `{'partOfSpeech': ..., 'lemma': ..., 'raw': ...}`,
every field optional. -/
structure Analysis where
  partOfSpeech : Option String
  lemma_ : Option String
  raw : Option String
deriving DecidableEq

/-- A token item of `adm['attributes']['token']['items']`.  `analyses` is
`none` when the token dict has no `'analyses'` key, and `some l` when the key
is present with list `l` (possibly empty — which matters: `analysis` below
raises on `some []`). -/
structure Tok where
  startOffset : Option Int
  endOffset : Option Int
  analyses : Option (List Analysis)
deriving DecidableEq

/-- An entity mention dict.  `type` is the `'type'` key that
`entity_mentions` writes onto the mention (absent until then, or already
present from an earlier pass). -/
structure Mention where
  startOffset : Option Int
  endOffset : Option Int
  entityId : Option String
  type : Option String
deriving DecidableEq

/-- An entity item of `adm['attributes']['entities']['items']`. -/
structure Entity where
  type : Option String
  mentions : List Mention
deriving DecidableEq

/-- A sentence item of `adm['attributes']['sentence']['items']` (before
scoring: just the two offsets). -/
structure Sentence where
  startOffset : Option Int
  endOffset : Option Int
deriving DecidableEq

/-- The parts of the ADM dict that the summarizer reads. -/
structure ADM where
  data : String
  sentences : List Sentence
  tokens : List Tok
  entities : List Entity
deriving DecidableEq

/-! ## Offset ranges: `extent` and `overlaps` -/

/-- `extent(obj)`: `obj.get('startOffset', -1), obj.get('endOffset', -1)`.
Each of the two fields defaults to `-1` independently. -/
def extent (s e : Option Int) : Int × Int := (s.getD (-1), e.getD (-1))

def Tok.ext (t : Tok) : Int × Int := extent t.startOffset t.endOffset

def Mention.ext (m : Mention) : Int × Int := extent m.startOffset m.endOffset

def Sentence.ext (s : Sentence) : Int × Int := extent s.startOffset s.endOffset

/-- Python's `set(range(s, e))`: the integers of the half-open interval. -/
def pyRange (p : Int × Int) : Finset ℤ := Finset.Ico p.1 p.2

/-- `overlaps(a, b)` on two extents: the source computes
`set.intersection(set(range(*extent(a))), set(range(*extent(b))))` and the
callers use the set's truthiness, i.e. nonemptiness. -/
def overlapsR (a b : Int × Int) : Bool := decide ((pyRange a ∩ pyRange b).Nonempty)

/-- `overlaps` on two objects, each given by its optional offset fields. -/
def overlapsObj (a b : Option Int × Option Int) : Bool :=
  overlapsR (extent a.1 a.2) (extent b.1 b.2)

/-- Modelled from the spec: the O(1) interval comparison the spec prescribes
for `overlaps` — `max(a.start, b.start) < min(a.end, b.end)` with both
intervals non-empty. -/
def overlapsCheck (a b : Option Int × Option Int) : Bool :=
  decide (max (extent a.1 a.2).1 (extent b.1 b.2).1 < min (extent a.1 a.2).2 (extent b.1 b.2).2 ∧
    (extent a.1 a.2).1 < (extent a.1 a.2).2 ∧ (extent b.1 b.2).1 < (extent b.1 b.2).2)

lemma overlapsR_iff (a b : Int × Int) :
    overlapsR a b = true ↔ max a.1 b.1 < min a.2 b.2 := by
  unfold overlapsR pyRange
  rw [decide_eq_true_iff, Finset.Ico_inter_Ico, Finset.nonempty_Ico]

lemma overlapsR_of_sentinel (p : Int × Int) : overlapsR (-1, -1) p = false := by
  rw [Bool.eq_false_iff]
  intro h
  have := (overlapsR_iff _ _).mp h
  simp only [max_lt_iff, lt_min_iff] at this
  omega

end Summarize

namespace Summarize

/-- Claim C4 (confirmed): for every pair of objects `a` and `b`,
`overlaps(a, b)` is truthy exactly when
`max(a.start, b.start) < min(a.end, b.end)` with both intervals non-empty
(so the O(1) interval comparison of the spec agrees with set-intersection
non-emptiness); an object whose extent is the sentinel `(-1, -1)` never
overlaps anything, and `overlaps` is symmetric. -/
theorem overlaps_refines_interval_check (a b c : Option Int × Option Int) :
    (overlapsObj a b = overlapsCheck a b) ∧
    (extent a.1 a.2 = (-1, -1) → overlapsObj a c = false) ∧
    overlapsObj a b = overlapsObj b a := by
  refine ⟨?_, ?_, ?_⟩
  · rw [Bool.eq_iff_iff]
    unfold overlapsObj overlapsCheck
    rw [overlapsR_iff, decide_eq_true_iff]
    simp only [max_lt_iff, lt_min_iff]
    omega
  · intro h
    unfold overlapsObj
    rw [h]
    exact overlapsR_of_sentinel _
  · unfold overlapsObj overlapsR pyRange
    rw [Finset.inter_comm]

/-- Claim C4, witnessed at concrete objects: the sentinel hypothesis is
discharged at an object with both offset fields absent. -/
theorem overlaps_refines_interval_check_witness :
    (overlapsObj (some 0, some 5) (some 3, some 8) =
      overlapsCheck (some 0, some 5) (some 3, some 8)) ∧
    overlapsObj (none, none) (some 3, some 8) = false ∧
    (overlapsObj (some 0, some 5) (some 3, some 8) =
      overlapsObj (some 3, some 8) (some 0, some 5)) := by
  have h := overlaps_refines_interval_check (some 0, some 5) (some 3, some 8) (some 3, some 8)
  have h2 := overlaps_refines_interval_check (none, none) (some 0, some 5) (some 3, some 8)
  exact ⟨h.1, h2.2.1 rfl, h.2.2⟩

/-- Claim C5 (refuted as stated): `extent` does not return the sentinel
`(-1, -1)` when exactly one of the two offset fields is present — with only
`startOffset = 5` it returns `(5, -1)`. -/
theorem extent_single_field_counterexample :
    extent (some 5) none = (5, -1) ∧ ((5 : Int), (-1 : Int)) ≠ ((-1 : Int), (-1 : Int)) := by
  exact ⟨rfl, by decide⟩

/-- Claim C5 (amended): `extent` defaults each offset field to `-1`
independently: it returns the `(startOffset, endOffset)` pair when both are
present (with no well-formedness check), the sentinel `(-1, -1)` when both
are absent, and a mixed pair `(s, -1)` or `(-1, e)` when exactly one is
present. -/
theorem extent_defaults_each_field (s e : Int) :
    extent (some s) (some e) = (s, e) ∧
    extent none none = (-1, -1) ∧
    extent (some s) none = (s, -1) ∧
    extent none (some e) = (-1, e) :=
  ⟨rfl, rfl, rfl, rfl⟩

/-! ## Frequency model -/

/-- `CONTENTFUL_POS_TAGS`. -/
def CONTENTFUL_POS_TAGS : List String := ["ADJ", "ADV", "NOUN", "PROPN", "VERB"]

/-- `CONTENTFUL_ENTITY_TYPES`. -/
def CONTENTFUL_ENTITY_TYPES : List String :=
  ["IDENTIFIER:DISTANCE", "IDENTIFIER:LATITUDE_LONGITUDE", "IDENTIFIER:MONEY",
   "LOCATION", "NATIONALITY", "ORGANIZATION", "PERSON", "PRODUCT", "RELIGION",
   "TEMPORAL:DATE", "TITLE"]

def emptyAnalysis : Analysis := ⟨none, none, none⟩

/-- `analysis(token) = token.get('analyses', [{}])[0]`, in the cases where it
does not raise: the `'analyses'` key is absent (default `[{}]`, so the empty
analysis) or present with a non-empty list (head).  On `some []` the source
raises `IndexError` ( `[][0]` ); total callers below only reach this function
after that case has been excluded, so the `headD` default is never exercised
on `some []` there. -/
def analysisT (t : Tok) : Analysis := (t.analyses.getD [emptyAnalysis]).headD emptyAnalysis

/-- A lexical frequency key: either the raw morphological analysis (when the
`'raw'` string is present and truthy) or the `(lemma, partOfSpeech)` pair. -/
inductive TokKey where
  | raw : String → TokKey
  | lemmaPos : Option String → Option String → TokKey
deriving DecidableEq

/-- `token_key(token)`: `analysis(token).get('raw') or (lemma, partOfSpeech)`.
An absent or empty `'raw'` string is falsy, so the pair is used then. -/
def token_key (t : Tok) : TokKey :=
  match (analysisT t).raw with
  | some s =>
    if s = "" then TokKey.lemmaPos (analysisT t).lemma_ (analysisT t).partOfSpeech
    else TokKey.raw s
  | none => TokKey.lemmaPos (analysisT t).lemma_ (analysisT t).partOfSpeech

/-- `is_contentful` of `lemma_fd`:
`analysis(token).get('partOfSpeech') in CONTENTFUL_POS_TAGS`
(`None` is never in the tag set). -/
def is_contentful_token (t : Tok) : Bool :=
  match (analysisT t).partOfSpeech with
  | some p => CONTENTFUL_POS_TAGS.contains p
  | none => false

/-- The traversal of all tokens performed by
`Counter(token_key(t) for t in tokens if is_contentful(t))` inside
`lemma_fd`: it raises `IndexError` at the first token whose `'analyses'` key
holds an empty list (via `analysis`), and otherwise yields the keys of the
contentful tokens in order. -/
def contentfulTokKeysE : List Tok → Except String (List TokKey)
  | [] => Except.ok []
  | t :: ts =>
    if t.analyses = some [] then Except.error "IndexError"
    else do
      let rest ← contentfulTokKeysE ts
      Except.ok (if is_contentful_token t then token_key t :: rest else rest)

/-- The key list `contentfulTokKeysE` yields when no token raises. -/
def lemma_fd_keys (tokens : List Tok) : List TokKey :=
  (tokens.filter is_contentful_token).map token_key

lemma contentfulTokKeysE_eq (tokens : List Tok) :
    contentfulTokKeysE tokens =
      if tokens.all (fun t => !(t.analyses = some [] : Bool)) then
        Except.ok (lemma_fd_keys tokens)
      else Except.error "IndexError" := by
  induction tokens with
  | nil => rfl
  | cons t ts ih =>
    simp only [contentfulTokKeysE]
    by_cases h : t.analyses = some []
    · simp [h]
    · rw [if_neg h, ih]
      have hb : (!(t.analyses = some [] : Bool)) = true := by simp [h]
      rw [List.all_cons, hb, Bool.true_and]
      by_cases hts : ts.all (fun t => !(t.analyses = some [] : Bool)) = true
      · rw [if_pos hts, if_pos hts]
        simp only [lemma_fd_keys, List.filter_cons]
        by_cases hc : is_contentful_token t
        · simp only [hc, if_true, List.map_cons]
          rfl
        · simp only [hc, Bool.false_eq_true, if_false]
          rfl
      · rw [if_neg hts, if_neg hts]
        rfl

/-! ## Entity mentions and the entity frequency model -/

/-- The mention dicts yielded by `entity_mentions(adm)`: each mention of each
entity, augmented (in the source: mutated in place) with the owning entity's
`'type'`. -/
def entity_mentions_list (adm : ADM) : List Mention :=
  (adm.entities.map (fun e => e.mentions.map (fun m => { m with type := e.type }))).flatten

/-- The state effect of exhausting the `entity_mentions(adm)` generator: every
mention dict of every entity gains a `'type'` key equal to its owning entity's
type.  Nothing else in the ADM changes. -/
def entity_mentions_adm (adm : ADM) : ADM :=
  { adm with
    entities := adm.entities.map
      (fun e => { e with mentions := e.mentions.map (fun m => { m with type := e.type }) }) }

/-- `is_contentful` of `entity_fd`:
`mention.get('type') in CONTENTFUL_ENTITY_TYPES`. -/
def is_contentful_mention (m : Mention) : Bool :=
  match m.type with
  | some ty => CONTENTFUL_ENTITY_TYPES.contains ty
  | none => false

/-- `entity_key(mention) = mention.get('entityId')`. -/
def entity_key (m : Mention) : Option String := m.entityId

/-- The key list counted by `entity_fd`:
`Counter(entity_key(m) for m in entity_mentions(adm) if is_contentful(m))`. -/
def entity_fd_keys (adm : ADM) : List (Option String) :=
  ((entity_mentions_list adm).filter is_contentful_mention).map entity_key

lemma forall₂_map_self {α β : Type} (f : α → β) (R : α → β → Prop) (h : ∀ a, R a (f a)) :
    ∀ l : List α, List.Forall₂ R l (l.map f)
  | [] => List.Forall₂.nil
  | a :: l => List.Forall₂.cons (h a) (forall₂_map_self f R h l)

end Summarize

namespace Summarize

/-- Claim C9 (confirmed): iterating `entity_mentions` to exhaustion — which
`entity_fd`, and hence `score_sentences` and `summarize`, always do — updates
the caller's ADM so that each mention dict inside
`adm['attributes']['entities']['items']` carries a `'type'` key equal to its
owning entity's type (`None` when the entity has no type, since
`entity.get('type')` defaults); no other field of any entity or mention, nor
any other part of the ADM, is modified; and the mentions the generator yields
are exactly the mentions of the updated ADM. -/
theorem entity_mentions_augments_types (adm : ADM) :
    (entity_mentions_adm adm).data = adm.data ∧
    (entity_mentions_adm adm).sentences = adm.sentences ∧
    (entity_mentions_adm adm).tokens = adm.tokens ∧
    List.Forall₂ (fun (e e' : Entity) =>
        e'.type = e.type ∧
        List.Forall₂ (fun (m m' : Mention) =>
            m'.type = e.type ∧ m'.startOffset = m.startOffset ∧
            m'.endOffset = m.endOffset ∧ m'.entityId = m.entityId)
          e.mentions e'.mentions)
      adm.entities (entity_mentions_adm adm).entities ∧
    entity_mentions_list adm =
      ((entity_mentions_adm adm).entities.map Entity.mentions).flatten := by
  refine ⟨rfl, rfl, rfl, ?_, ?_⟩
  · refine forall₂_map_self _ _ (fun e => ⟨rfl, ?_⟩) adm.entities
    exact forall₂_map_self _ _ (fun m => ⟨rfl, rfl, rfl, rfl⟩) e.mentions
  · unfold entity_mentions_list entity_mentions_adm
    rw [List.map_map]
    rfl

end Summarize

namespace Summarize

/-! ## Sorting by extent

`sorted(items, key=extent)` sorts stably by the `(startOffset, endOffset)`
key pair under Python's lexicographic tuple comparison.  `insertionSort`
below is likewise stable, inserting each earlier element before later
elements with an equal key. -/

/-- Lexicographic `<=` on the `(start, end)` key pairs, as Python compares
tuples. -/
def extKeyLE (a b : Int × Int) : Prop := a.1 < b.1 ∨ (a.1 = b.1 ∧ a.2 ≤ b.2)

instance : DecidableRel extKeyLE := fun a b => by unfold extKeyLE; infer_instance

/-- Lexicographic `<` on the key pairs. -/
def extKeyLT (a b : Int × Int) : Prop := a.1 < b.1 ∨ (a.1 = b.1 ∧ a.2 < b.2)

/-- Comparison of two items by their extents. -/
def byExtent {α : Type} (k : α → Int × Int) (a b : α) : Prop := extKeyLE (k a) (k b)

/-- Strict comparison of two items by their extents. -/
def byExtentLT {α : Type} (k : α → Int × Int) (a b : α) : Prop := extKeyLT (k a) (k b)

instance {α : Type} (k : α → Int × Int) : DecidableRel (byExtent k) := fun a b => by
  unfold byExtent
  infer_instance

instance {α : Type} (k : α → Int × Int) : IsTotal α (byExtent k) := by
  constructor
  intro a b
  unfold byExtent extKeyLE
  omega

instance {α : Type} (k : α → Int × Int) : IsTrans α (byExtent k) := by
  constructor
  intro a b c
  unfold byExtent extKeyLE
  omega

instance {α : Type} (k : α → Int × Int) : IsAntisymm α (byExtentLT k) := by
  constructor
  intro a b hab hba
  unfold byExtentLT extKeyLT at hab hba
  omega

/-- `sorted(l, key=extent)`: stable sort by the lexicographic extent key. -/
def sortByExtent {α : Type} (k : α → Int × Int) (l : List α) : List α :=
  List.insertionSort (byExtent k) l

/-- Sorting by extent is insensitive to the input order as soon as the
extents are pairwise distinct: any two permuted inputs sort to the same
list. -/
lemma sortByExtent_eq_of_perm {α : Type} (k : α → Int × Int) {l₁ l₂ : List α}
    (hp : l₁.Perm l₂) (hn : (l₁.map k).Nodup) :
    sortByExtent k l₁ = sortByExtent k l₂ := by
  have hperm : (sortByExtent k l₁).Perm (sortByExtent k l₂) :=
    ((List.perm_insertionSort _ l₁).trans hp).trans (List.perm_insertionSort _ l₂).symm
  have hspair : ∀ l : List α, (l.map k).Nodup →
      (sortByExtent k l).Pairwise (byExtentLT k) := by
    intro l hl
    have hs : (sortByExtent k l).Pairwise (byExtent k) :=
      List.sorted_insertionSort (byExtent k) l
    have hnd : (sortByExtent k l).Pairwise (fun a b => k a ≠ k b) := by
      have h1 : l.Pairwise (fun a b => k a ≠ k b) := by
        rw [← List.pairwise_map]
        exact hl
      exact ((List.perm_insertionSort (byExtent k) l).pairwise_iff
        (fun h => Ne.symm h)).mpr h1
    refine (hs.and hnd).imp ?_
    intro a b hab
    rcases hab with ⟨hle, hne⟩
    unfold byExtent extKeyLE at hle
    unfold byExtentLT extKeyLT
    rcases hle with h1 | ⟨h1, h2⟩
    · exact Or.inl h1
    · refine Or.inr ⟨h1, lt_of_le_of_ne h2 ?_⟩
      intro h3
      exact hne (Prod.ext h1 h3)
  exact List.eq_of_perm_of_sorted hperm
    (hspair l₁ hn)
    (hspair l₂ ((hp.map k).symm.nodup_iff.mpr hn))

/-! ## The sweep scorer -/

/-- The `{}` cursor value used when the token list is exhausted. -/
def Tok.empty : Tok := ⟨none, none, none⟩

/-- The `{}` cursor value used when the mention list is exhausted. -/
def Mention.empty : Mention := ⟨none, none, none, none⟩

/-- `tokens.pop(0) if tokens else {}`. -/
def popT : List Tok → Tok × List Tok
  | [] => (Tok.empty, [])
  | t :: ts => (t, ts)

/-- `mentions.pop(0) if mentions else {}`. -/
def popM : List Mention → Mention × List Mention
  | [] => (Mention.empty, [])
  | m :: ms => (m, ms)

/-- The token while-loop of `score_sentences`:
`while overlaps(token, sentence): score += ...; token = pop; tokenLength += 1`.
The recursion carries explicit fuel standing in for potential divergence;
`sweepTok_isOk` below proves the fuel used by `sweepAll` always suffices. -/
def sweepTok (lfd : TokKey → ℕ) (sent : Int × Int) :
    ℕ → Tok → List Tok → ℚ → ℕ → Except String (ℚ × ℕ × Tok × List Tok)
  | 0, _, _, _, _ => Except.error "Nonterminating"
  | fuel + 1, token, tokens, sc, tl =>
    if overlapsR token.ext sent then
      let sc' := sc + (lfd (token_key token) : ℚ)
      let p := popT tokens
      sweepTok lfd sent fuel p.1 p.2 sc' (tl + 1)
    else Except.ok (sc, tl, token, tokens)

/-- The mention while-loop of `score_sentences`:
`while overlaps(mention, sentence): score += ...; mention = pop`. -/
def sweepMen (efd : Option String → ℕ) (sent : Int × Int) :
    ℕ → Mention → List Mention → ℚ → Except String (ℚ × Mention × List Mention)
  | 0, _, _, _ => Except.error "Nonterminating"
  | fuel + 1, mention, mentions, sc =>
    if overlapsR mention.ext sent then
      let sc' := sc + (efd (entity_key mention) : ℚ)
      let p := popM mentions
      sweepMen efd sent fuel p.1 p.2 sc'
    else Except.ok (sc, mention, mentions)

/-- A sentence after scoring: the original offsets plus the `tokenLength`
field and the rational part of the score.  `raw` is the accumulated frequency
total just before the normalizing division (the value of
`sentence['score']` after the two while-loops), `norm` is
`raw / max(tokenLength, 1)`; the stored float score is
`norm * log(totalSentences - index + 1)`, see `finalScore`. -/
structure SentScore where
  sent : Sentence
  raw : ℚ
  norm : ℚ
  tokenLength : ℕ
deriving DecidableEq

/-- The sentence loop of `score_sentences`.  Each iteration pops a fresh
token and mention cursor, runs the two while-loops, normalizes by
`max(tokenLength, 1)` and passes the leftover lists on.  The token and
mention held in the cursor variables when the while-loops exit are discarded
(`p1.2.2.2` and `p2.2.2` drop `p1.2.2.1`/`p2.2.1`), exactly as the source
overwrites `token`/`mention` with a fresh `pop(0)` at the top of the next
iteration. -/
def sweepAll (lfd : TokKey → ℕ) (efd : Option String → ℕ) :
    List Sentence → List Tok → List Mention → Except String (List SentScore)
  | [], _, _ => Except.ok []
  | s :: rest, tokens, mentions => do
    let pt := popT tokens
    let pm := popM mentions
    let p1 ← sweepTok lfd s.ext (pt.2.length + 2) pt.1 pt.2 0 0
    let p2 ← sweepMen efd s.ext (pm.2.length + 2) pm.1 pm.2 p1.1
    let norm : ℚ := p2.1 / (max p1.2.1 1 : ℕ)
    let others ← sweepAll lfd efd rest p1.2.2.2 p2.2.2
    Except.ok (⟨s, p2.1, norm, p1.2.1⟩ :: others)

/-- `score_sentences(adm)`: build the two frequency distributions (raising
`IndexError` on a token whose `'analyses'` key holds an empty list), sort
tokens and augmented entity mentions by extent, and sweep the sentences in
order.  The result is the per-sentence `(norm, tokenLength)` data written
onto the sentence items. -/
def scoreSentencesE (adm : ADM) : Except String (List SentScore) := do
  let lemmaKeys ← contentfulTokKeysE adm.tokens
  let lfd : TokKey → ℕ := fun k => lemmaKeys.count k
  let efd : Option String → ℕ := fun k => (entity_fd_keys adm).count k
  let tokens := sortByExtent Tok.ext adm.tokens
  let mentions := sortByExtent Mention.ext (entity_mentions_list adm)
  sweepAll lfd efd adm.sentences tokens mentions

/-- `log(len(sentences) - i + 1)`: the position-decay factor for the
sentence at zero-based index `i` of a document with `N` sentences. -/
noncomputable def decay (N i : ℕ) : ℝ := Real.log (((N : ℤ) - (i : ℤ) + 1 : ℤ) : ℝ)

/-- The float score `score_sentences` stores on the sentence at zero-based
index `i`: the normalized rational part times the position-decay factor. -/
noncomputable def finalScore (N i : ℕ) (norm : ℚ) : ℝ := (norm : ℝ) * decay N i

/-! ## Termination of the sweep loops -/

lemma overlapsR_tok_empty (p : Int × Int) : overlapsR Tok.empty.ext p = false :=
  overlapsR_of_sentinel p

lemma overlapsR_mention_empty (p : Int × Int) : overlapsR Mention.empty.ext p = false :=
  overlapsR_of_sentinel p

/-- The fuel passed to the token while-loop suffices: each iteration pops one
element from a finite list, and once the list is exhausted the cursor is the
empty dict, whose sentinel extent overlaps nothing, so the loop exits. -/
lemma bind_ok_eq {α β : Type} (x : α) (f : α → Except String β) :
    (do
      let a ← Except.ok (ε := String) x
      f a) = f x := rfl

lemma sweepTok_isOk (lfd : TokKey → ℕ) (sent : Int × Int) :
    ∀ (tokens : List Tok) (fuel : ℕ) (token : Tok) (sc : ℚ) (tl : ℕ),
      tokens.length + 2 ≤ fuel →
      ∃ r, sweepTok lfd sent fuel token tokens sc tl = Except.ok r := by
  intro tokens
  induction tokens with
  | nil =>
    intro fuel token sc tl hf
    rw [List.length_nil] at hf
    obtain ⟨f, rfl⟩ : ∃ f, fuel = f + 1 := ⟨fuel - 1, by omega⟩
    simp only [sweepTok]
    by_cases hov : overlapsR token.ext sent = true
    · rw [if_pos hov]
      obtain ⟨g, rfl⟩ : ∃ g, f = g + 1 := ⟨f - 1, by omega⟩
      simp only [popT, sweepTok]
      have hemp : ¬ (overlapsR Tok.empty.ext sent = true) := by
        simp [overlapsR_tok_empty]
      rw [if_neg hemp]
      exact ⟨_, rfl⟩
    · rw [if_neg hov]
      exact ⟨_, rfl⟩
  | cons t ts ih =>
    intro fuel token sc tl hf
    rw [List.length_cons] at hf
    obtain ⟨f, rfl⟩ : ∃ f, fuel = f + 1 := ⟨fuel - 1, by omega⟩
    simp only [sweepTok]
    by_cases hov : overlapsR token.ext sent = true
    · rw [if_pos hov]
      simp only [popT]
      exact ih f t _ _ (by omega)
    · rw [if_neg hov]
      exact ⟨_, rfl⟩

/-- Same for the mention while-loop. -/
lemma sweepMen_isOk (efd : Option String → ℕ) (sent : Int × Int) :
    ∀ (mentions : List Mention) (fuel : ℕ) (mention : Mention) (sc : ℚ),
      mentions.length + 2 ≤ fuel →
      ∃ r, sweepMen efd sent fuel mention mentions sc = Except.ok r := by
  intro mentions
  induction mentions with
  | nil =>
    intro fuel mention sc hf
    rw [List.length_nil] at hf
    obtain ⟨f, rfl⟩ : ∃ f, fuel = f + 1 := ⟨fuel - 1, by omega⟩
    simp only [sweepMen]
    by_cases hov : overlapsR mention.ext sent = true
    · rw [if_pos hov]
      obtain ⟨g, rfl⟩ : ∃ g, f = g + 1 := ⟨f - 1, by omega⟩
      simp only [popM, sweepMen]
      have hemp : ¬ (overlapsR Mention.empty.ext sent = true) := by
        simp [overlapsR_mention_empty]
      rw [if_neg hemp]
      exact ⟨_, rfl⟩
    · rw [if_neg hov]
      exact ⟨_, rfl⟩
  | cons m ms ih =>
    intro fuel mention sc hf
    rw [List.length_cons] at hf
    obtain ⟨f, rfl⟩ : ∃ f, fuel = f + 1 := ⟨fuel - 1, by omega⟩
    simp only [sweepMen]
    by_cases hov : overlapsR mention.ext sent = true
    · rw [if_pos hov]
      simp only [popM]
      exact ih f m _ (by omega)
    · rw [if_neg hov]
      exact ⟨_, rfl⟩

/-- The sentence loop always completes: one list element is consumed per
sentence and per loop iteration, and the fuel bounds above always hold. -/
lemma sweepAll_isOk (lfd : TokKey → ℕ) (efd : Option String → ℕ) :
    ∀ (sentences : List Sentence) (tokens : List Tok) (mentions : List Mention),
      ∃ out, sweepAll lfd efd sentences tokens mentions = Except.ok out := by
  intro sentences
  induction sentences with
  | nil => exact fun _ _ => ⟨[], rfl⟩
  | cons s rest ih =>
    intro tokens mentions
    obtain ⟨r1, hr1⟩ :=
      sweepTok_isOk lfd s.ext (popT tokens).2 ((popT tokens).2.length + 2)
        (popT tokens).1 0 0 le_rfl
    obtain ⟨r2, hr2⟩ :=
      sweepMen_isOk efd s.ext (popM mentions).2 ((popM mentions).2.length + 2)
        (popM mentions).1 r1.1 le_rfl
    obtain ⟨out, hout⟩ := ih r1.2.2.2 r2.2.2
    refine ⟨⟨s, r2.1, r2.1 / (max r1.2.1 1 : ℕ), r1.2.1⟩ :: out, ?_⟩
    simp only [sweepAll]
    rw [hr1, bind_ok_eq, hr2, bind_ok_eq, hout, bind_ok_eq]

/-- When every token's `'analyses'` field is absent or non-empty,
`score_sentences` completes and raises nothing. -/
lemma scoreSentencesE_isOk (adm : ADM)
    (h : ∀ t ∈ adm.tokens, t.analyses ≠ some []) :
    ∃ out, scoreSentencesE adm = Except.ok out := by
  have hall : adm.tokens.all (fun t => !(t.analyses = some [] : Bool)) = true := by
    rw [List.all_eq_true]
    intro t ht
    simpa using h t ht
  obtain ⟨out, hout⟩ := sweepAll_isOk
    (fun k => (lemma_fd_keys adm.tokens).count k)
    (fun k => (entity_fd_keys adm).count k)
    adm.sentences (sortByExtent Tok.ext adm.tokens)
    (sortByExtent Mention.ext (entity_mentions_list adm))
  refine ⟨out, ?_⟩
  simp only [scoreSentencesE, contentfulTokKeysE_eq, hall, if_true]
  exact hout

/-- The scorer yields one scored record per sentence, in order, and the
record at position `i` carries the `i`-th sentence. -/
lemma sweepAll_length (lfd : TokKey → ℕ) (efd : Option String → ℕ) :
    ∀ (sentences : List Sentence) (tokens : List Tok) (mentions : List Mention) out,
      sweepAll lfd efd sentences tokens mentions = Except.ok out →
      out.length = sentences.length := by
  intro sentences
  induction sentences with
  | nil =>
    intro tokens mentions out hout
    simp only [sweepAll] at hout
    cases hout
    rfl
  | cons s rest ih =>
    intro tokens mentions out hout
    obtain ⟨r1, hr1⟩ :=
      sweepTok_isOk lfd s.ext (popT tokens).2 ((popT tokens).2.length + 2)
        (popT tokens).1 0 0 le_rfl
    obtain ⟨r2, hr2⟩ :=
      sweepMen_isOk efd s.ext (popM mentions).2 ((popM mentions).2.length + 2)
        (popM mentions).1 r1.1 le_rfl
    obtain ⟨out2, hout2⟩ := sweepAll_isOk lfd efd rest r1.2.2.2 r2.2.2
    simp only [sweepAll] at hout
    rw [hr1, bind_ok_eq, hr2, bind_ok_eq, hout2, bind_ok_eq] at hout
    cases hout
    simp [ih _ _ _ hout2]

lemma scoreSentencesE_length (adm : ADM) (out : List SentScore)
    (h : scoreSentencesE adm = Except.ok out) :
    out.length = adm.sentences.length := by
  simp only [scoreSentencesE] at h
  rcases hk : contentfulTokKeysE adm.tokens with e | keys
  · rw [hk] at h
    cases h
  · rw [hk] at h
    exact sweepAll_length _ _ _ _ _ _ h

/-- Every record the sweep emits normalizes its raw accumulated score by
`max(tokenLength, 1)`. -/
lemma sweepAll_norm (lfd : TokKey → ℕ) (efd : Option String → ℕ) :
    ∀ (sentences : List Sentence) (tokens : List Tok) (mentions : List Mention) out,
      sweepAll lfd efd sentences tokens mentions = Except.ok out →
      ∀ r ∈ out, r.norm = r.raw / (max r.tokenLength 1 : ℕ) := by
  intro sentences
  induction sentences with
  | nil =>
    intro tokens mentions out hout r hr
    simp only [sweepAll] at hout
    cases hout
    cases hr
  | cons s rest ih =>
    intro tokens mentions out hout r hr
    obtain ⟨r1, hr1⟩ :=
      sweepTok_isOk lfd s.ext (popT tokens).2 ((popT tokens).2.length + 2)
        (popT tokens).1 0 0 le_rfl
    obtain ⟨r2, hr2⟩ :=
      sweepMen_isOk efd s.ext (popM mentions).2 ((popM mentions).2.length + 2)
        (popM mentions).1 r1.1 le_rfl
    obtain ⟨out2, hout2⟩ := sweepAll_isOk lfd efd rest r1.2.2.2 r2.2.2
    simp only [sweepAll] at hout
    rw [hr1, bind_ok_eq, hr2, bind_ok_eq, hout2, bind_ok_eq] at hout
    cases hout
    rcases List.mem_cons.mp hr with rfl | hr2
    · rfl
    · exact ih _ _ _ hout2 r hr2

lemma scoreSentencesE_norm (adm : ADM) (out : List SentScore)
    (h : scoreSentencesE adm = Except.ok out) :
    ∀ r ∈ out, r.norm = r.raw / (max r.tokenLength 1 : ℕ) := by
  simp only [scoreSentencesE] at h
  rcases hk : contentfulTokKeysE adm.tokens with e | keys
  · rw [hk] at h
    cases h
  · rw [hk] at h
    exact sweepAll_norm _ _ _ _ _ _ h

end Summarize

namespace Summarize

/-- The claim C10 counterexample ADM: structurally complete (sentence, token
and entity collections all present), but its single token carries an
`'analyses'` key holding the empty list. -/
def c10BadAdm : ADM :=
  ⟨"", [⟨some 0, some 10⟩], [⟨some 0, some 5, some []⟩], []⟩

/-- Claim C10 (refuted as stated): `score_sentences` does raise for some ADM
containing the expected sentence/token/entity collections — a token whose
`'analyses'` key holds an empty list makes `analysis` evaluate `[][0]`, an
`IndexError`, inside the `lemma_fd` traversal. -/
theorem score_sentences_raises_counterexample :
    scoreSentencesE c10BadAdm = Except.error "IndexError" := rfl

/-- Claim C10 (amended): for every ADM containing the expected
sentence/token/entity collections whose tokens, when they carry an
`'analyses'` field, carry a non-empty one, `score_sentences` terminates and
raises no exception: when the token or mention stream is exhausted mid-sweep
the cursor is replaced by the empty dict, whose extent is the sentinel
`(-1, -1)` and overlaps nothing, so each inner while loop exits; every loop
iteration removes one element from a finite list. -/
theorem score_sentences_terminates (adm : ADM)
    (h : ∀ t ∈ adm.tokens, t.analyses ≠ some []) :
    ∃ out, scoreSentencesE adm = Except.ok out :=
  scoreSentencesE_isOk adm h

/-- A structurally complete ADM with a well-formed token. -/
def c10GoodAdm : ADM :=
  ⟨"", [⟨some 0, some 10⟩], [⟨some 0, some 5, none⟩], []⟩

/-- Claim C10's amended theorem, witnessed at a concrete ADM. -/
theorem score_sentences_terminates_witness :
    (∀ t ∈ c10GoodAdm.tokens, t.analyses ≠ some []) ∧
    ∃ out, scoreSentencesE c10GoodAdm = Except.ok out :=
  ⟨by decide, score_sentences_terminates c10GoodAdm (by decide)⟩

/-! ## Positivity and monotonicity of the decay factor -/

lemma decay_pos {N i : ℕ} (h : i < N) : 0 < decay N i := by
  unfold decay
  apply Real.log_pos
  have h1 : (1 : ℤ) < (N : ℤ) - (i : ℤ) + 1 := by omega
  exact_mod_cast h1

lemma decay_lt {N i j : ℕ} (hij : i < j) (hj : j < N) : decay N j < decay N i := by
  unfold decay
  apply Real.log_lt_log
  · have h1 : (0 : ℤ) < (N : ℤ) - (j : ℤ) + 1 := by omega
    exact_mod_cast h1
  · have h2 : (N : ℤ) - (j : ℤ) + 1 < (N : ℤ) - (i : ℤ) + 1 := by omega
    exact_mod_cast h2

/-! ## Claim C1: sweep conservation fails on the code -/

/-- Two adjacent sentences tiled by four tokens, everything sorted, sentences
non-overlapping and in left-to-right order. -/
def bugAdm : ADM :=
  ⟨"", [⟨some 0, some 10⟩, ⟨some 10, some 20⟩],
   [⟨some 0, some 5, none⟩, ⟨some 5, some 10, none⟩,
    ⟨some 10, some 15, none⟩, ⟨some 15, some 20, none⟩], []⟩

set_option maxRecDepth 8000 in
/-- Claim C1 (code bug): on `bugAdm` — sentences `[0,10)`, `[10,20)` in order
and non-overlapping, tokens `[0,5)`, `[5,10)`, `[10,15)`, `[15,20)` already
sorted by extent — `score_sentences` assigns token lengths `2` and `1`, so the
sum is `3`, while all `4` tokens overlap a sentence.  The token `[10,15)` is
popped while scanning the first sentence (it ends that sentence's while
loop), held in the cursor variable, and then overwritten by the fresh
`tokens.pop(0)` at the top of the second sentence's iteration — dropped
without ever being counted, contradicting the conservation property. -/
theorem sweep_conservation_fails :
    scoreSentencesE bugAdm =
      Except.ok [⟨⟨some 0, some 10⟩, 0, 0, 2⟩, ⟨⟨some 10, some 20⟩, 0, 0, 1⟩] ∧
    (2 + 1 : ℕ) ≠ 4 ∧
    (bugAdm.tokens.filter
      (fun t => bugAdm.sentences.any (fun s => overlapsR t.ext s.ext))).length = 4 ∧
    sortByExtent Tok.ext bugAdm.tokens = bugAdm.tokens ∧
    overlapsR (⟨some 0, some 10⟩ : Sentence).ext (⟨some 10, some 20⟩ : Sentence).ext
      = false := by
  refine ⟨?_, by decide, by decide, by decide, by decide⟩
  simp +decide [scoreSentencesE, contentfulTokKeysE, sweepAll, sweepTok, sweepMen,
    sortByExtent, List.insertionSort, List.orderedInsert, entity_fd_keys, entity_mentions_list,
    popT, popM, bind_ok_eq, bugAdm, is_contentful_mention, entity_key, lemma_fd_keys,
    overlapsR, pyRange, Tok.ext, Mention.ext, Sentence.ext, extent, byExtent, extKeyLE,
    is_contentful_token, token_key, analysisT, CONTENTFUL_ENTITY_TYPES, CONTENTFUL_POS_TAGS]

/-! ## Claim C2: a tokenless sentence can still score -/

/-- One sentence, no tokens, one contentful `PERSON` mention overlapping the
sentence. -/
def c2Adm : ADM :=
  ⟨"", [⟨some 0, some 10⟩], [],
   [⟨some "PERSON", [⟨some 0, some 5, some "E1", none⟩]⟩]⟩

set_option maxRecDepth 8000 in
/-- Claim C2 (refuted as stated): a sentence with `tokenLength = 0` does not
always score `0.0`.  On `c2Adm` the single sentence has `tokenLength = 0`
but accumulated mention score `1`; the normalization divides by
`max(0, 1) = 1`, leaving `1`, and the final stored score is
`1 * ln(1 - 0 + 1) = ln 2 > 0`. -/
theorem zero_tokenLength_score_counterexample :
    scoreSentencesE c2Adm = Except.ok [⟨⟨some 0, some 10⟩, 1, 1, 0⟩] ∧
    (0 : ℝ) < finalScore 1 0 1 := by
  refine ⟨?_, ?_⟩
  · simp +decide [scoreSentencesE, contentfulTokKeysE, sweepAll, sweepTok, sweepMen,
    sortByExtent, List.insertionSort, List.orderedInsert, entity_fd_keys, entity_mentions_list,
    popT, popM, bind_ok_eq, c2Adm, is_contentful_mention, entity_key, lemma_fd_keys,
    overlapsR, pyRange, Tok.ext, Mention.ext, Sentence.ext, extent, byExtent, extKeyLE,
    is_contentful_token, token_key, analysisT, CONTENTFUL_ENTITY_TYPES, CONTENTFUL_POS_TAGS]
  · unfold finalScore
    simpa using decay_pos (show 0 < 1 by omega)

/-- Claim C2 (amended): for a sentence with `tokenLength = 0` the
normalizing division is by `max(0, 1) = 1`, so the accumulated mention score
survives it unchanged, and the final stored score is `0.0` precisely when
that accumulated raw score is zero — not unconditionally. -/
theorem zero_tokenLength_score_iff (adm : ADM) (out : List SentScore) (i : ℕ)
    (h : scoreSentencesE adm = Except.ok out) (hi : i < out.length)
    (htl : (out.get ⟨i, hi⟩).tokenLength = 0) :
    (out.get ⟨i, hi⟩).norm = (out.get ⟨i, hi⟩).raw ∧
    (finalScore out.length i ((out.get ⟨i, hi⟩).norm) = 0 ↔
      (out.get ⟨i, hi⟩).raw = 0) := by
  have hmem : out.get ⟨i, hi⟩ ∈ out := List.get_mem out i hi
  have hn := scoreSentencesE_norm adm out h _ hmem
  rw [htl] at hn
  rw [show (max 0 1 : ℕ) = 1 from rfl, Nat.cast_one, div_one] at hn
  refine ⟨hn, ?_⟩
  rw [hn]
  unfold finalScore
  rw [mul_eq_zero]
  constructor
  · intro hc
    rcases hc with hc | hc
    · exact_mod_cast hc
    · exact absurd hc (ne_of_gt (decay_pos hi))
  · intro hc
    exact Or.inl (by exact_mod_cast hc)

set_option maxRecDepth 8000 in
/-- Claim C2's amended theorem, witnessed on `c2Adm`. -/
theorem zero_tokenLength_score_iff_witness :
    scoreSentencesE c2Adm = Except.ok [⟨⟨some 0, some 10⟩, 1, 1, 0⟩] ∧
    (1 : ℚ) = (1 : ℚ) ∧
    (finalScore 1 0 1 = 0 ↔ (1 : ℚ) = 0) := by
  have h : scoreSentencesE c2Adm = Except.ok [⟨⟨some 0, some 10⟩, 1, 1, 0⟩] := by
    simp +decide [scoreSentencesE, contentfulTokKeysE, sweepAll, sweepTok, sweepMen,
    sortByExtent, List.insertionSort, List.orderedInsert, entity_fd_keys, entity_mentions_list,
    popT, popM, bind_ok_eq, c2Adm, is_contentful_mention, entity_key, lemma_fd_keys,
    overlapsR, pyRange, Tok.ext, Mention.ext, Sentence.ext, extent, byExtent, extKeyLE,
    is_contentful_token, token_key, analysisT, CONTENTFUL_ENTITY_TYPES, CONTENTFUL_POS_TAGS]
  have h2 := zero_tokenLength_score_iff c2Adm [⟨⟨some 0, some 10⟩, 1, 1, 0⟩] 0 h
    (by decide) (by decide)
  exact ⟨h, h2.1, h2.2⟩

/-! ## Claim C6: position decay -/

/-- Two sentences, no tokens, no entities: both raw scores are `0`. -/
def c6Adm : ADM := ⟨"", [⟨some 0, some 10⟩, ⟨some 10, some 20⟩], [], []⟩

set_option maxRecDepth 8000 in
/-- Claim C6 (refuted as stated): two sentences with identical raw scores and
token counts where the earlier one does *not* receive a strictly larger
decayed score — on `c6Adm` both sentences score `0` raw, and
`0 * ln(3) = 0 * ln(2) = 0`. -/
theorem position_decay_counterexample :
    scoreSentencesE c6Adm =
      Except.ok [⟨⟨some 0, some 10⟩, 0, 0, 0⟩, ⟨⟨some 10, some 20⟩, 0, 0, 0⟩] ∧
    ¬ (finalScore 2 1 0 < finalScore 2 0 0) := by
  refine ⟨?_, ?_⟩
  · simp +decide [scoreSentencesE, contentfulTokKeysE, sweepAll, sweepTok, sweepMen,
    sortByExtent, List.insertionSort, List.orderedInsert, entity_fd_keys, entity_mentions_list,
    popT, popM, bind_ok_eq, c6Adm, is_contentful_mention, entity_key, lemma_fd_keys,
    overlapsR, pyRange, Tok.ext, Mention.ext, Sentence.ext, extent, byExtent, extKeyLE,
    is_contentful_token, token_key, analysisT, CONTENTFUL_ENTITY_TYPES, CONTENTFUL_POS_TAGS]
  · unfold finalScore
    simp

/-- Claim C6 (amended): the decay factor applied to the sentence at zero-based
index `i` of an `N`-sentence document is `ln(N - i + 1)` (so the first
sentence is weighted `ln(N + 1)` and the last `ln 2`), and of two sentences
with identical *positive* raw scores and identical token counts the earlier
one receives a strictly larger decayed score; with raw score `0` both decayed
scores are `0` and the strict inequality fails. -/
theorem position_decay_monotone (adm : ADM) (out : List SentScore) (i j : ℕ)
    (h : scoreSentencesE adm = Except.ok out)
    (hi : i < out.length) (hj : j < out.length) (hij : i < j)
    (hraw : (out.get ⟨i, hi⟩).raw = (out.get ⟨j, hj⟩).raw)
    (htl : (out.get ⟨i, hi⟩).tokenLength = (out.get ⟨j, hj⟩).tokenLength)
    (hpos : 0 < (out.get ⟨i, hi⟩).raw) :
    (∀ (k : ℕ) (q : ℚ),
      finalScore out.length k q =
        (q : ℝ) * Real.log (((out.length : ℤ) - (k : ℤ) + 1 : ℤ) : ℝ)) ∧
    finalScore out.length j ((out.get ⟨j, hj⟩).norm) <
      finalScore out.length i ((out.get ⟨i, hi⟩).norm) := by
  have hni := scoreSentencesE_norm adm out h _ (List.get_mem out i hi)
  have hnj := scoreSentencesE_norm adm out h _ (List.get_mem out j hj)
  have hnorm : (out.get ⟨i, hi⟩).norm = (out.get ⟨j, hj⟩).norm := by
    rw [hni, hnj, hraw, htl]
  have hpos2 : 0 < (out.get ⟨i, hi⟩).norm := by
    rw [hni]
    apply div_pos hpos
    have hm : 0 < max (out.get ⟨i, hi⟩).tokenLength 1 := by omega
    exact_mod_cast hm
  refine ⟨fun k q => rfl, ?_⟩
  unfold finalScore
  rw [← hnorm]
  apply mul_lt_mul_of_pos_left (decay_lt hij hj)
  exact_mod_cast hpos2

/-- Three contentful tokens sharing the raw key `w`: the surviving token of
each sentence scores `3`, so the two sentences get identical positive raw
scores and identical token counts. -/
def c6wAdm : ADM :=
  ⟨"", [⟨some 0, some 10⟩, ⟨some 10, some 20⟩],
   [⟨some 0, some 5, some [⟨some "NOUN", some "w", some "w"⟩]⟩,
    ⟨some 10, some 14, some [⟨some "NOUN", some "w", some "w"⟩]⟩,
    ⟨some 14, some 18, some [⟨some "NOUN", some "w", some "w"⟩]⟩], []⟩

set_option maxRecDepth 8000 in
/-- Claim C6's amended theorem, witnessed on `c6wAdm`, whose two sentences
both have normalized score `3` and token length `1`. -/
theorem position_decay_monotone_witness :
    scoreSentencesE c6wAdm =
      Except.ok [⟨⟨some 0, some 10⟩, 3, 3, 1⟩, ⟨⟨some 10, some 20⟩, 3, 3, 1⟩] ∧
    finalScore 2 1 3 < finalScore 2 0 3 := by
  have h : scoreSentencesE c6wAdm =
      Except.ok [⟨⟨some 0, some 10⟩, 3, 3, 1⟩, ⟨⟨some 10, some 20⟩, 3, 3, 1⟩] := by
    simp +decide [scoreSentencesE, contentfulTokKeysE, sweepAll, sweepTok, sweepMen,
    sortByExtent, List.insertionSort, List.orderedInsert, entity_fd_keys, entity_mentions_list,
    popT, popM, bind_ok_eq, c6wAdm, is_contentful_mention, entity_key, lemma_fd_keys,
    overlapsR, pyRange, Tok.ext, Mention.ext, Sentence.ext, extent, byExtent, extKeyLE,
    is_contentful_token, token_key, analysisT, CONTENTFUL_ENTITY_TYPES, CONTENTFUL_POS_TAGS]
  refine ⟨h, ?_⟩
  have h2 := position_decay_monotone c6wAdm
    [⟨⟨some 0, some 10⟩, 3, 3, 1⟩, ⟨⟨some 10, some 20⟩, 3, 3, 1⟩] 0 1 h
    (by decide) (by decide) (by decide) (by decide) (by decide) (by decide)
  exact h2.2

end Summarize

namespace Summarize

/-! ## The ranker/selector: `summarize` -/

/-- `int(x)` on a Python float: truncation toward zero. -/
def pyInt (q : ℚ) : Int := if q < 0 then -(Int.floor (-q)) else Int.floor q

/-- Clamping of a (possibly negative) Python slice index against a sequence
of length `len`. -/
def pyIdx (len : ℕ) (i : Int) : ℕ := if i < 0 then (len + i).toNat else min i.toNat len

/-- `get_text`: `adm['data'][slice(*extent(obj))]`, Python string slicing
over code points. -/
def get_text (adm : ADM) (s : Sentence) : String :=
  ((adm.data.data.take (pyIdx adm.data.length s.ext.2)).drop
    (pyIdx adm.data.length s.ext.1)).asString

/-- `text.rstrip('\r\n')`. -/
def rstripCRLF (s : String) : String :=
  ((s.data.reverse.dropWhile (fun c => c == '\r' || c == '\n')).reverse).asString

/-- Attach to each scored sentence the float score stored on it by
`score_sentences`: `norm * log(totalSentences - index + 1)` at its zero-based
index in the original sentence order. -/
noncomputable def withFinal (l : List SentScore) : List (SentScore × ℝ) :=
  l.enum.map (fun p => (p.2, finalScore l.length p.1 p.2.norm))

/-- `sorted(sentences, key=itemgetter('score'), reverse=True)`: stable sort
on the stored float score, descending. -/
noncomputable def rankDesc (l : List (SentScore × ℝ)) : List (SentScore × ℝ) :=
  List.insertionSort (fun a b => b.2 ≤ a.2) l

/-- `sorted(ranked[:n], key=extent)`. -/
noncomputable def extentSortP (l : List (SentScore × ℝ)) : List (SentScore × ℝ) :=
  List.insertionSort (byExtent (fun p => p.1.sent.ext)) l

/-- The `adm['attributes']['summary']` payload (minus the `info` string,
which only reports `n` and the effective percentage). -/
structure SummaryResult where
  ranked : List (SentScore × ℝ)
  top_n : List (SentScore × ℝ)
  summary : String

/-- `summarize(adm, summarize_percent, n)`: score the sentences, resolve `n`
(`max(int(len(sentences) * summarize_percent), 1)` when `n` is `None`, else
`n` itself — recomputing `summarize_percent = n / len(sentences)` and thereby
raising `ZeroDivisionError` on an empty sentence list), rank all sentences by
stored score descending, re-sort the first `n` of them by extent and join
their texts (trailing CR/LF stripped) with newlines. -/
noncomputable def summarizeE (adm : ADM) (summarize_percent : ℚ) (n? : Option ℕ) :
    Except String SummaryResult := do
  let scored ← scoreSentencesE adm
  let n : Int ←
    match n? with
    | none => Except.ok (max (pyInt ((scored.length : ℚ) * summarize_percent)) 1)
    | some n =>
      if scored.length = 0 then Except.error "ZeroDivisionError"
      else Except.ok (n : Int)
  let ranked := rankDesc (withFinal scored)
  let top_n := extentSortP (ranked.take n.toNat)
  let summary := String.intercalate "\n"
    (top_n.map (fun p => rstripCRLF (get_text adm p.1.sent)))
  Except.ok ⟨ranked, top_n, summary⟩

lemma rankDesc_length (l : List (SentScore × ℝ)) : (rankDesc l).length = l.length :=
  List.length_insertionSort _ l

lemma extentSortP_length (l : List (SentScore × ℝ)) : (extentSortP l).length = l.length :=
  List.length_insertionSort _ l

lemma withFinal_length (l : List SentScore) : (withFinal l).length = l.length := by
  unfold withFinal
  rw [List.length_map, List.enum_length]

end Summarize

namespace Summarize

lemma bind_error_eq {α β : Type} (e : String) (f : α → Except String β) :
    (do
      let a ← Except.error (α := α) e
      f a) = Except.error e := rfl

/-- An ADM with an empty sentence list (and nothing else). -/
def c3EmptyAdm : ADM := ⟨"", [], [], []⟩

/-- Claim C3 (refuted as stated): on an ADM with an empty sentence list,
`summarize` does not fail with a clearly named error.  The percentage-based
call succeeds silently (`n` resolves to `max(int(0 * p), 1) = 1` without any
division, and slicing an empty list yields an empty summary), while the
explicit-`n` call raises the unrelated arithmetic fault `ZeroDivisionError`
from the `summarize_percent = n / len(sentences)` recomputation. -/
theorem empty_sentences_no_named_error :
    summarizeE c3EmptyAdm (1/2) none = Except.ok ⟨[], [], ""⟩ ∧
    summarizeE c3EmptyAdm (1/2) (some 3) = Except.error "ZeroDivisionError" := by
  constructor
  · simp +decide [summarizeE, scoreSentencesE, contentfulTokKeysE, sweepAll, sortByExtent,
      List.insertionSort, entity_fd_keys, entity_mentions_list, pyInt, withFinal,
      rankDesc, extentSortP, bind_ok_eq, c3EmptyAdm, String.intercalate]
  · rfl

/-- Claim C3 (amended): on every ADM whose sentence list is empty (and whose
tokens are well-formed enough for the frequency pass not to raise),
`summarize` with `n = None` succeeds silently, producing an empty ranking and
an empty summary string, and `summarize` with an explicit `n` raises
`ZeroDivisionError`; neither call produces a clearly named
"no sentences to summarize" error. -/
theorem empty_sentences_behavior (adm : ADM) (p : ℚ) (n : ℕ)
    (hs : adm.sentences = []) (ht : ∀ t ∈ adm.tokens, t.analyses ≠ some []) :
    summarizeE adm p none = Except.ok ⟨[], [], ""⟩ ∧
    summarizeE adm p (some n) = Except.error "ZeroDivisionError" := by
  obtain ⟨out, hout⟩ := scoreSentencesE_isOk adm ht
  have hlen : out.length = 0 := by
    rw [scoreSentencesE_length adm out hout, hs]
    rfl
  rw [List.length_eq_zero] at hlen
  subst hlen
  constructor
  · simp only [summarizeE, hout, bind_ok_eq]
    norm_num [pyInt, withFinal, rankDesc, extentSortP, List.insertionSort, String.intercalate]
  · simp only [summarizeE, hout, bind_ok_eq]
    norm_num [bind_error_eq]

/-- Claim C3's amended theorem, witnessed on the concrete empty ADM with a
different percentage and explicit `n`. -/
theorem empty_sentences_behavior_witness :
    c3EmptyAdm.sentences = [] ∧
    summarizeE c3EmptyAdm (1/3) none = Except.ok ⟨[], [], ""⟩ ∧
    summarizeE c3EmptyAdm (1/3) (some 7) = Except.error "ZeroDivisionError" := by
  have h := empty_sentences_behavior c3EmptyAdm (1/3) 7 rfl (by decide)
  exact ⟨rfl, h.1, h.2⟩

end Summarize

namespace Summarize

/-- Claim C7 (confirmed): for every document with at least one sentence
(and tokens well-formed enough for scoring not to raise), `summarize` with no
explicit `n` and a percentage in `(0, 1]` selects exactly
`max(floor(totalSentences * targetPercent), 1)` sentences, and `summarize`
with an explicit `n` selects exactly `min(n, totalSentences)` sentences. -/
theorem selection_count (adm : ADM) (p : ℚ) (n0 : ℕ)
    (ht : ∀ t ∈ adm.tokens, t.analyses ≠ some [])
    (hlen : 1 ≤ adm.sentences.length) (hp0 : 0 < p) (hp1 : p ≤ 1) :
    (∃ r, summarizeE adm p none = Except.ok r ∧
       r.top_n.length = (max (Int.floor ((adm.sentences.length : ℚ) * p)) 1).toNat) ∧
    (∃ r, summarizeE adm p (some n0) = Except.ok r ∧
       r.top_n.length = min n0 adm.sentences.length) := by
  obtain ⟨out, hout⟩ := scoreSentencesE_isOk adm ht
  have hL : out.length = adm.sentences.length := scoreSentencesE_length adm out hout
  have hq : ¬ ((out.length : ℚ) * p < 0) := by
    push_neg
    exact mul_nonneg (Nat.cast_nonneg _) hp0.le
  have hfloor : Int.floor ((out.length : ℚ) * p) ≤ (out.length : ℤ) := by
    have h1 : ((out.length : ℚ)) * p ≤ ((out.length : ℕ) : ℚ) :=
      mul_le_of_le_one_right (Nat.cast_nonneg _) hp1
    have h2 := Int.floor_le_floor h1
    rwa [Int.floor_natCast] at h2
  constructor
  · simp only [summarizeE, hout, bind_ok_eq]
    refine ⟨_, rfl, ?_⟩
    rw [extentSortP_length, List.length_take, rankDesc_length, withFinal_length]
    rw [hL] at hfloor hq ⊢
    simp only [pyInt, if_neg hq]
    have hmax : (max (Int.floor ((adm.sentences.length : ℚ) * p)) 1).toNat
        ≤ adm.sentences.length := by
      rw [Int.toNat_le]
      omega
    omega
  · simp only [summarizeE, hout, bind_ok_eq]
    have hz : ¬ (out.length = 0) := by omega
    simp only [if_neg hz, bind_ok_eq]
    refine ⟨_, rfl, ?_⟩
    rw [extentSortP_length, List.length_take, rankDesc_length, withFinal_length, hL]
    simp

/-- A ten-sentence document (the sentences carry no offsets; none are needed
for counting). -/
def c7Adm : ADM := ⟨"", List.replicate 10 ⟨none, none⟩, [], []⟩

/-- Claim C7, witnessed on a 10-sentence document at percent `1/2` and at
explicit `n = 3`: exactly `5` and exactly `3` sentences are selected. -/
theorem selection_count_witness :
    (1 ≤ c7Adm.sentences.length ∧ (0 : ℚ) < 1/2 ∧ (1/2 : ℚ) ≤ 1) ∧
    (∃ r, summarizeE c7Adm (1/2) none = Except.ok r ∧
       r.top_n.length = (max (Int.floor ((c7Adm.sentences.length : ℚ) * (1/2))) 1).toNat) ∧
    (∃ r, summarizeE c7Adm (1/2) (some 3) = Except.ok r ∧
       r.top_n.length = min 3 c7Adm.sentences.length) ∧
    (max (Int.floor ((c7Adm.sentences.length : ℚ) * (1/2))) 1).toNat = 5 ∧
    min 3 c7Adm.sentences.length = 3 := by
  have h := selection_count c7Adm (1/2) 3 (by decide) (by decide) (by norm_num) (by norm_num)
  refine ⟨⟨by decide, by norm_num, by norm_num⟩, h.1, h.2, ?_, by decide⟩
  norm_num [c7Adm]
  rfl

end Summarize

namespace Summarize

lemma aug_flatten_perm {l1 l2 : List Entity}
    (h : List.Forall₂ (fun (e1 e2 : Entity) =>
      e1.type = e2.type ∧ e2.mentions.Perm e1.mentions) l1 l2) :
    ((l2.map (fun e => e.mentions.map (fun m => { m with type := e.type }))).flatten).Perm
      ((l1.map (fun e => e.mentions.map (fun m => { m with type := e.type }))).flatten) := by
  induction h with
  | nil => exact List.Perm.refl _
  | cons h1 h ih =>
    simp only [List.map_cons, List.flatten_cons]
    refine List.Perm.append ?_ ih
    rw [← h1.1]
    exact h1.2.map _

/-- Claim C8 (confirmed): for ADMs whose token extents are pairwise distinct
and whose entity-mention extents are pairwise distinct, permuting the token
items list and each entity's mentions list changes nothing in the output of
`score_sentences`: the scorer sorts both streams by extent before sweeping
(and with distinct keys the sorted list is permutation-independent), and the
two frequency distributions are multiset counts, insensitive to order. -/
theorem scoring_order_insensitive (adm1 adm2 : ADM)
    (hsent : adm2.sentences = adm1.sentences)
    (htok : adm2.tokens.Perm adm1.tokens)
    (hent : List.Forall₂ (fun (e1 e2 : Entity) =>
        e1.type = e2.type ∧ e2.mentions.Perm e1.mentions) adm1.entities adm2.entities)
    (hndt : (adm1.tokens.map Tok.ext).Nodup)
    (hndm : ((entity_mentions_list adm1).map Mention.ext).Nodup) :
    scoreSentencesE adm2 = scoreSentencesE adm1 := by
  have hm : (entity_mentions_list adm2).Perm (entity_mentions_list adm1) := by
    unfold entity_mentions_list
    exact aug_flatten_perm hent
  have hsort_t : sortByExtent Tok.ext adm2.tokens = sortByExtent Tok.ext adm1.tokens :=
    sortByExtent_eq_of_perm Tok.ext htok ((htok.map Tok.ext).nodup_iff.mpr hndt)
  have hsort_m : sortByExtent Mention.ext (entity_mentions_list adm2)
      = sortByExtent Mention.ext (entity_mentions_list adm1) :=
    sortByExtent_eq_of_perm Mention.ext hm ((hm.map Mention.ext).nodup_iff.mpr hndm)
  have hall : (adm2.tokens.all fun t => !(t.analyses = some [] : Bool))
      = (adm1.tokens.all fun t => !(t.analyses = some [] : Bool)) := by
    rw [Bool.eq_iff_iff, List.all_eq_true, List.all_eq_true]
    constructor
    · intro hh x hx
      exact hh x (htok.mem_iff.mpr hx)
    · intro hh x hx
      exact hh x (htok.mem_iff.mp hx)
  simp only [scoreSentencesE, contentfulTokKeysE_eq, hall, hsent]
  by_cases hgood : (adm1.tokens.all fun t => !(t.analyses = some [] : Bool)) = true
  · rw [if_pos hgood, if_pos hgood, bind_ok_eq, bind_ok_eq, hsort_t, hsort_m]
    have h1 : (lemma_fd_keys adm2.tokens).Perm (lemma_fd_keys adm1.tokens) :=
      (htok.filter _).map token_key
    have h2 : (entity_fd_keys adm2).Perm (entity_fd_keys adm1) :=
      (hm.filter _).map entity_key
    congr 1
    · funext k
      exact h1.countP_eq _
    · funext k
      exact h2.countP_eq _
  · rw [if_neg hgood, if_neg hgood, bind_error_eq, bind_error_eq]


/-- The baseline ADM for the C8 witness: two tokens and one entity with two
mentions, all extents pairwise distinct. -/
def c8Adm1 : ADM :=
  ⟨"", [⟨some 0, some 10⟩],
   [⟨some 0, some 4, some [⟨some "NOUN", some "a", some "a"⟩]⟩,
    ⟨some 5, some 9, some [⟨some "NOUN", some "b", some "b"⟩]⟩],
   [⟨some "PERSON", [⟨some 0, some 4, some "E1", none⟩, ⟨some 5, some 9, some "E1", none⟩]⟩]⟩

/-- `c8Adm1` with the token list and the entity's mention list reversed. -/
def c8Adm2 : ADM :=
  ⟨"", [⟨some 0, some 10⟩],
   [⟨some 5, some 9, some [⟨some "NOUN", some "b", some "b"⟩]⟩,
    ⟨some 0, some 4, some [⟨some "NOUN", some "a", some "a"⟩]⟩],
   [⟨some "PERSON", [⟨some 5, some 9, some "E1", none⟩, ⟨some 0, some 4, some "E1", none⟩]⟩]⟩

/-- Claim C8's theorem, witnessed on a concrete pair of permuted ADMs. -/
theorem scoring_order_insensitive_witness :
    c8Adm2.sentences = c8Adm1.sentences ∧
    c8Adm2.tokens.Perm c8Adm1.tokens ∧
    (c8Adm1.tokens.map Tok.ext).Nodup ∧
    ((entity_mentions_list c8Adm1).map Mention.ext).Nodup ∧
    scoreSentencesE c8Adm2 = scoreSentencesE c8Adm1 := by
  refine ⟨rfl, List.Perm.swap _ _ _, by decide, by decide, ?_⟩
  exact scoring_order_insensitive c8Adm1 c8Adm2 rfl (List.Perm.swap _ _ _)
    (List.Forall₂.cons ⟨rfl, List.Perm.swap _ _ _⟩ List.Forall₂.nil) (by decide) (by decide)

end Summarize
